import Mathlib

/-!
# Keyword nodes of the ciscli command parser

A shallow embedding of the functions `match_keyword` and `disp_keyword` of
`src/parser/src/parser_node_keyword.c`, together with the declarations of
`src/parser/include/parser_common.h` they rely on and the node type
enumeration of `src/ciscli.h`.

Conventions of the embedding.

* A C `char` is the natural number of its byte; `' '` is `32`, `'\0'` is `0`.
* A `char` array or C string is a `List Nat`.  Reading `a[i]` is `char_at a i`;
  positions past the listed bytes read as `'\0'`.  For the fixed array
  `char keyword[KEYWORD_LENGTH_MAX]` this is the zero padding of the array, for
  the command line it is the terminating NUL.
* `int64_t` values are integers in `[-2^63, 2^63)`; `uint32_t` and the loop
  counters are natural numbers (no counter of `match_keyword` leaves the range
  of `int32_t` for a command line shorter than `2^31` bytes).
* A pointer that may be `NULL` is an `Option`.
-/

namespace Ciscli

/-! ## parser_common.h -/

/-- The macro `KEYWORD_LENGTH_MAX`. -/
def KEYWORD_LENGTH_MAX : Nat := 32

/-- The macro `STRING_LENGTH_MAX`. -/
def STRING_LENGTH_MAX : Nat := 32

/-- The value of `EINVAL` in `errno.h`. -/
def EINVAL : Int := 22

/-- The character `' '`. -/
def SPACE : Nat := 32

/-- The character `'\0'`. -/
def NUL : Nat := 0

/-- The common node header, `parser_node_header_t`.  The `child` and `sibling`
links and the help text are not read by the keyword node functions and are left
out.  `match_keyword` reads the flag word under the name `node_flags`. -/
structure parser_node_header_t where
  node_flags : Nat
  type : Nat
deriving DecidableEq, Repr

/-- The keyword node, `parser_node_keyword_t` (used by `match_keyword` under
the name `PARSER_NODE_KEYWORD`). -/
structure PARSER_NODE_KEYWORD where
  header : parser_node_header_t
  keyword : List Nat
  minimum_match : Nat
  index : Nat
  value : Int
  string : List Nat
deriving DecidableEq, Repr

/-- The three flag masks `PARSER_NODE_KW_FLAG_SET_VALUE`,
`PARSER_NODE_KW_FLAG_SET_BIT` and `PARSER_NODE_KW_FLAG_SET_STRING` tested by
`match_keyword`.  Their defining header is not part of the sources, so the
masks are a parameter of the embedding. -/
structure KW_FLAGS where
  PARSER_NODE_KW_FLAG_SET_VALUE : Nat
  PARSER_NODE_KW_FLAG_SET_BIT : Nat
  PARSER_NODE_KW_FLAG_SET_STRING : Nat
deriving DecidableEq, Repr

/-- Reading `a[i]` from a `char` array: bytes past the listed ones are NUL. -/
def char_at (a : List Nat) (i : Nat) : Nat := a.getD i NUL

/-- The C string held in a `char` array: the bytes before the first NUL. -/
def c_string (a : List Nat) : List Nat := a.takeWhile (fun c => c != NUL)

/-- The bytes of a string literal. -/
def bytes (s : String) : List Nat := s.toList.map Char.toNat

/-! ## The control context -/

/-- Modelled from the spec: the control context `PARSER_CTRL`, whose header
`parser_control.h` is missing.  The spec describes it as the raw input line, a
cursor counting the bytes already consumed, an indexed array of integer slots,
an indexed array of bounded string slots and the active privilege level.
`command_line` holds the bytes before the terminating NUL; the capacity of the
store is the length of the slot arrays; `string_capacity` bounds the length of
a stored string. -/
structure PARSER_CTRL where
  command_line : List Nat
  total_parsed : Nat
  integers : List Int
  strings : List (List Nat)
  string_capacity : Nat
  privilege : Nat
deriving DecidableEq, Repr

/-- Modelled from the spec: `parser_control_get_integer`, missing from the
sources.  The spec makes it bounds-checked against the capacity of the store:
an index in range yields the slot (status zero in C), an index out of range is
a reported error (`none`). -/
def parser_control_get_integer (ctl : PARSER_CTRL) (index : Nat) : Option Int :=
  if h : index < ctl.integers.length then some (ctl.integers.get ⟨index, h⟩) else none

/-- Modelled from the spec: `parser_control_set_integer`, missing from the
sources.  Bounds-checked: an index in range overwrites the slot, an index out
of range is a reported error (`none`) and writes nothing. -/
def parser_control_set_integer (ctl : PARSER_CTRL) (index : Nat) (value : Int) :
    Option PARSER_CTRL :=
  if index < ctl.integers.length then
    some { ctl with integers := ctl.integers.set index value }
  else none

/-- Modelled from the spec: `parser_control_set_string`, missing from the
sources.  Bounds-checked like the integer write; the C string passed in is
silently truncated to the capacity of a string slot. -/
def parser_control_set_string (ctl : PARSER_CTRL) (index : Nat) (str : List Nat) :
    Option PARSER_CTRL :=
  if index < ctl.strings.length then
    some { ctl with strings := ctl.strings.set index ((c_string str).take ctl.string_capacity) }
  else none

/-! ## 64-bit arithmetic -/

/-- Reduction of an integer to the range of `int64_t` (two's complement). -/
def to_int64 (n : Int) : Int := (n + 2 ^ 63) % 2 ^ 64 - 2 ^ 63

/-- The range of `int64_t`. -/
def in_int64 (n : Int) : Prop := -2 ^ 63 ≤ n ∧ n < 2 ^ 63

instance (n : Int) : Decidable (in_int64 n) := by
  unfold in_int64; infer_instance

/-- The 64-bit word that represents an `int64_t` value in two's complement. -/
def to_uint64 (n : Int) : Nat := (n % 2 ^ 64).toNat

/-- The expression `((int64_t)1) << s`.  For `0 ≤ s ≤ 62` this is `2 ^ s`; for
`s = 63` the bit pattern is the sign bit, as produced by two's complement
targets.  A shift count outside `0..63` is undefined in C; nothing proved below
depends on the value chosen here for it. -/
def int64_shl_one (s : Int) : Int := to_int64 (2 ^ s.toNat)

/-! ## parser_node_keyword.c -/

/-- The test `cmdptr == '\0'` of `match_keyword`.  It compares the pointer
`cmdptr = &ctl->command_line[ctl->total_parsed]` itself (not the character it
points to) with the null pointer.  The test is reached only after `cmdptr[i]`
has been read, so the pointer is not null there. -/
def cmdptr_is_null : Bool := false

/-- The unconsumed part of the command line, `&command_line[total_parsed]`. -/
def unconsumed (ctl : PARSER_CTRL) : List Nat := ctl.command_line.drop ctl.total_parsed

/-- The `for` loop of `match_keyword`.  The first argument is the number of
iterations the loop bound `i < KEYWORD_LENGTH_MAX` still allows, the next two
are `i` and `match`.  The result is `none` when the loop leaves the function
through `return 0`, and `some (i, match)` when the loop ends by `break` or by
its bound. -/
def keyword_loop (keyword cmdptr : List Nat) : Nat → Nat → Nat → Option (Nat × Nat)
  | 0, i, matched => some (i, matched)
  | n + 1, i, matched =>
    if char_at keyword i = char_at cmdptr i ∧ char_at keyword i ≠ NUL then
      keyword_loop keyword cmdptr n (i + 1) (matched + 1)
    else if char_at cmdptr i = SPACE ∨ cmdptr_is_null = true then
      some (i, matched)
    else
      none

/-- The loop `while (cmdptr[i] == ' ') i++;`.  The first argument is the part
of the command line from position `i` on; at its end `cmdptr[i]` is the
terminating NUL and the loop stops. -/
def skip_spaces : List Nat → Nat → Nat
  | [], i => i
  | c :: rest, i => if c = SPACE then skip_spaces rest (i + 1) else i

/-- The set-bit branch of the effect block: read the slot, OR in the bit
`knode->value`, write the slot back; nothing is written when the read reports
an error. -/
def effect_set_bit (knode : PARSER_NODE_KEYWORD) (ctl : PARSER_CTRL) : PARSER_CTRL :=
  match parser_control_get_integer ctl knode.index with
  | some value =>
    (parser_control_set_integer ctl knode.index
      (Int.lor value (int64_shl_one knode.value))).getD ctl
  | none => ctl

/-- The set-string branch of the effect block.  The status returned by the
store is ignored. -/
def effect_set_string (knode : PARSER_NODE_KEYWORD) (ctl : PARSER_CTRL) : PARSER_CTRL :=
  (parser_control_set_string ctl knode.index knode.string).getD ctl

/-- The set-integer branch of the effect block.  The status returned by the
store is ignored. -/
def effect_set_integer (knode : PARSER_NODE_KEYWORD) (ctl : PARSER_CTRL) : PARSER_CTRL :=
  (parser_control_set_integer ctl knode.index knode.value).getD ctl

/-- The effect block of `match_keyword`, run on an accepted match. -/
def apply_effect (F : KW_FLAGS) (knode : PARSER_NODE_KEYWORD) (ctl : PARSER_CTRL) :
    PARSER_CTRL :=
  if knode.header.node_flags &&& F.PARSER_NODE_KW_FLAG_SET_VALUE ≠ 0 then
    if knode.header.node_flags &&& F.PARSER_NODE_KW_FLAG_SET_BIT ≠ 0 then
      effect_set_bit knode ctl
    else if knode.header.node_flags &&& F.PARSER_NODE_KW_FLAG_SET_STRING ≠ 0 then
      effect_set_string knode ctl
    else
      effect_set_integer knode ctl
  else ctl

/-- The function `match_keyword`.  The result pairs the returned `int32_t` with
the control context after the call. -/
def match_keyword (F : KW_FLAGS) (node : Option PARSER_NODE_KEYWORD)
    (ctl : Option PARSER_CTRL) : Int × Option PARSER_CTRL :=
  match node, ctl with
  | some knode, some c =>
    let cmdptr := unconsumed c
    match keyword_loop knode.keyword cmdptr KEYWORD_LENGTH_MAX 0 0 with
    | none => (0, some c)
    | some (i, matched) =>
      if matched < knode.minimum_match then (0, some c)
      else
        let i := skip_spaces (cmdptr.drop i) i
        ((i : Int), some (apply_effect F knode c))
  | _, _ => (-EINVAL, ctl)

/-! ## Concrete nodes and contexts used in the examples -/

/-- The flag masks with the values `parser_common.h` gives the generic
`PARSER_NODE_FLAG_SET_VALUE` and `PARSER_NODE_FLAG_SET_BIT`, and a further bit
for the string effect. -/
def kw_flags : KW_FLAGS := ⟨0x40, 0x80, 0x800⟩

/-- A keyword node with the given flag word, keyword, minimum match, slot
index, value and string. -/
def keyword_node (flags : Nat) (kw : String) (min index : Nat) (value : Int) (str : String) :
    PARSER_NODE_KEYWORD :=
  ⟨⟨flags, 1⟩, bytes kw, min, index, value, bytes str⟩

/-- A keyword node without effect. -/
def plain_keyword (kw : String) (min : Nat) : PARSER_NODE_KEYWORD :=
  keyword_node 0 kw min 0 0 ""

/-- A control context at cursor `cur` of the line `line`, with the given
integer slots and two empty string slots of capacity 31. -/
def ctl_store (line : String) (cur : Nat) (ints : List Int) : PARSER_CTRL :=
  ⟨bytes line, cur, ints, [[], []], 31, 15⟩

/-- A control context at cursor `cur` of the line `line`, with four integer
slots holding zero. -/
def ctl_at (line : String) (cur : Nat) : PARSER_CTRL :=
  ctl_store line cur [0, 0, 0, 0]

/-- A control context at cursor `cur` of a line given by its bytes, with four
integer slots holding zero. -/
def ctl_line (line : List Nat) (cur : Nat) : PARSER_CTRL :=
  ⟨line, cur, [0, 0, 0, 0], [[], []], 31, 15⟩

/-- A keyword array as the node API leaves it: a non-empty keyword of at most
`KEYWORD_LENGTH_MAX - 1` characters, none of them NUL or a space, followed by
its terminating NUL. -/
def keyword_wf (knode : PARSER_NODE_KEYWORD) : Prop :=
  knode.keyword ≠ [] ∧ knode.keyword.length < KEYWORD_LENGTH_MAX ∧
    ∀ c ∈ knode.keyword, c ≠ NUL ∧ c ≠ SPACE

instance (knode : PARSER_NODE_KEYWORD) : Decidable (keyword_wf knode) := by
  unfold keyword_wf; infer_instance

/-- The character `'\t'`. -/
def TAB : Nat := 9

/-- The path through `match_keyword` (both pointers present) that reaches the
final `return match`: the character loop ends by `break` or by its bound, and
the minimum match test passes.  Every other path leaves through a
`return 0`. -/
def reaches_return_match (knode : PARSER_NODE_KEYWORD) (ctl : PARSER_CTRL) : Bool :=
  match keyword_loop knode.keyword (unconsumed ctl) KEYWORD_LENGTH_MAX 0 0 with
  | none => false
  | some (_, matched) => !decide (matched < knode.minimum_match)

/-- The C library function `strcpy(dst, src)`: the bytes of `src` up to and
including its terminating NUL overwrite the start of `dst`. -/
def strcpy (dst src : List Nat) : List Nat :=
  c_string src ++ NUL :: dst.drop ((c_string src).length + 1)

/-- The C library function `strncpy(dst, src, n)`: exactly `n` bytes of `dst`
are written, the bytes of `src` before its first NUL (at most `n` of them)
followed by NUL padding. -/
def strncpy (dst src : List Nat) (n : Nat) : List Nat :=
  c_string (src.take n) ++ List.replicate (n - (c_string (src.take n)).length) NUL ++ dst.drop n

/-- The function `disp_keyword`.  The first argument is the outcome of
`malloc(KEYWORD_LENGTH_MAX)`: `none` when the allocation fails, otherwise the
block with whatever bytes it holds.  The control context is not used. -/
def disp_keyword (block : Option (List Nat)) (node : Option PARSER_NODE_KEYWORD)
    (_ctl : Option PARSER_CTRL) : Option (List Nat) :=
  match block with
  | some disp =>
    match node with
    | none => some (strcpy disp (bytes "NULL"))
    | some knode => some (strncpy disp knode.keyword KEYWORD_LENGTH_MAX)
  | none => none

/-! ## The node type enumerations -/

/-- The enumeration `ciscli_node_type` of `ciscli.h`. -/
inductive ciscli_node_type where
  | CISCLI_KEYWORD
  | CISCLI_INTEGER
  | CISCLI_FLOAT
  | CISCLI_IPADDR
  | CISCLI_MACADDR
  | CISCLI_CONDITIONAL
  | CISCLI_CONSTANT
  | CISCLI_KW_TRIE
  | CISCLI_STRING
  | CISCLI_NODE_TYPE_MAX
deriving DecidableEq, Repr

/-- The enumerators of `ciscli_node_type` in the order of their declaration. -/
def ciscli_node_type_decl : List ciscli_node_type :=
  [.CISCLI_KEYWORD, .CISCLI_INTEGER, .CISCLI_FLOAT, .CISCLI_IPADDR, .CISCLI_MACADDR,
   .CISCLI_CONDITIONAL, .CISCLI_CONSTANT, .CISCLI_KW_TRIE, .CISCLI_STRING,
   .CISCLI_NODE_TYPE_MAX]

/-- The value of an enumerator of `ciscli_node_type`: none has an initialiser,
so the first is 0 and each next one is the previous plus one. -/
def ciscli_node_type.val (t : ciscli_node_type) : Nat := ciscli_node_type_decl.indexOf t

/-- The priority classes in the words of the spec: keyword, then integer, then
address (float, IP, MAC), then branch, then constant, then selector, then
string; a smaller rank wins. -/
def spec_priority_rank : ciscli_node_type → Nat
  | .CISCLI_KEYWORD => 0
  | .CISCLI_INTEGER => 1
  | .CISCLI_FLOAT => 2
  | .CISCLI_IPADDR => 2
  | .CISCLI_MACADDR => 2
  | .CISCLI_CONDITIONAL => 3
  | .CISCLI_CONSTANT => 4
  | .CISCLI_KW_TRIE => 5
  | .CISCLI_STRING => 6
  | .CISCLI_NODE_TYPE_MAX => 7

/-- The enumeration `parser_node_type_e` of `parser_common.h`. -/
inductive parser_node_type_e where
  | PARSER_NODE_TYPE_ROOT
  | PARSER_NODE_TYPE_KEYWORD
  | PARSER_NODE_TYPE_INTEGER
  | PARSER_NODE_TYPE_STRING
  | PARSER_NODE_TYPE_CONSTANT
  | PARSER_NODE_TYPE_CONDITIONAL
  | PARSER_NODE_TYPE_EOL
  | PARSER_NODE_TYPE_MAX
deriving DecidableEq, Repr

/-- The enumerators of `parser_node_type_e` in the order of their
declaration. -/
def parser_node_type_e_decl : List parser_node_type_e :=
  [.PARSER_NODE_TYPE_ROOT, .PARSER_NODE_TYPE_KEYWORD, .PARSER_NODE_TYPE_INTEGER,
   .PARSER_NODE_TYPE_STRING, .PARSER_NODE_TYPE_CONSTANT, .PARSER_NODE_TYPE_CONDITIONAL,
   .PARSER_NODE_TYPE_EOL, .PARSER_NODE_TYPE_MAX]

/-- The value of an enumerator of `parser_node_type_e`: the first is given the
value 0 and each next one is the previous plus one. -/
def parser_node_type_e.val (t : parser_node_type_e) : Nat := parser_node_type_e_decl.indexOf t

/-- The discriminator under which `init_keyword_node` registers the keyword
behaviour (`parser_node_register_type(PARSER_NODE_TYPE_KEYWORD, ...)`). -/
def init_keyword_node_type : parser_node_type_e := .PARSER_NODE_TYPE_KEYWORD

/-! ## Letter case -/

/-- An ASCII letter. -/
def is_letter (c : Nat) : Prop := (65 ≤ c ∧ c ≤ 90) ∨ (97 ≤ c ∧ c ≤ 122)

instance (c : Nat) : Decidable (is_letter c) := by
  unfold is_letter; infer_instance

/-- The same ASCII letter in the other case; other characters are left
alone. -/
def swap_case (c : Nat) : Nat :=
  if 65 ≤ c ∧ c ≤ 90 then c + 32 else if 97 ≤ c ∧ c ≤ 122 then c - 32 else c

/-! ## Reading characters -/

theorem char_at_append_left (p r : List Nat) (j : Nat) (h : j < p.length) :
    char_at (p ++ r) j = char_at p j := by
  simp [char_at, List.getD_eq_getElem?_getD, List.getElem?_append_left h]

theorem char_at_append_length (p r : List Nat) :
    char_at (p ++ r) p.length = r.headD NUL := by
  cases r <;> simp [char_at, List.getD_eq_getElem?_getD, List.getElem?_append_right (le_refl _)]

theorem char_at_mem (p : List Nat) (j : Nat) (h : j < p.length) : char_at p j ∈ p := by
  simp [char_at, List.getD_eq_getElem?_getD, List.getElem?_eq_getElem h]

/-! ## The character loop -/

/-- While keyword and command line agree on keyword characters, the loop
advances `i` and `match` together. -/
theorem keyword_loop_agree (kw cmd : List Nat) :
    ∀ (k n i m : Nat),
      (∀ j, i ≤ j → j < i + k → char_at kw j = char_at cmd j ∧ char_at kw j ≠ NUL) →
      keyword_loop kw cmd (n + k) i m = keyword_loop kw cmd n (i + k) (m + k)
  | 0, _, _, _, _ => rfl
  | k + 1, n, i, m, h => by
    have h0 := h i le_rfl (by omega)
    rw [show n + (k + 1) = (n + k) + 1 by omega, keyword_loop, if_pos h0,
      keyword_loop_agree kw cmd k n (i + 1) (m + 1) (fun j h1 h2 => h j (by omega) (by omega))]
    congr 1 <;> omega

/-- A common prefix of keyword characters is matched in full. -/
theorem keyword_loop_prefix (p t crest : List Nat) (hnz : ∀ c ∈ p, c ≠ NUL) (n m : Nat) :
    keyword_loop (p ++ t) (p ++ crest) (n + p.length) 0 m =
      keyword_loop (p ++ t) (p ++ crest) n p.length (m + p.length) := by
  have h := keyword_loop_agree (p ++ t) (p ++ crest) p.length n 0 m (by
    intro j _ hj
    have hj' : j < p.length := by omega
    rw [char_at_append_left p t j hj', char_at_append_left p crest j hj']
    exact ⟨rfl, hnz _ (char_at_mem p j hj')⟩)
  simpa using h

/-- A prefix of the keyword followed by a space ends the loop by `break`. -/
theorem keyword_loop_prefix_space (p t rest : List Nat) (hnz : ∀ c ∈ p, c ≠ NUL)
    (ht : t.headD NUL ≠ SPACE) (hlen : p.length < KEYWORD_LENGTH_MAX) :
    keyword_loop (p ++ t) (p ++ SPACE :: rest) KEYWORD_LENGTH_MAX 0 0 =
      some (p.length, p.length) := by
  obtain ⟨n, hn⟩ : ∃ n, KEYWORD_LENGTH_MAX = (n + 1) + p.length := ⟨KEYWORD_LENGTH_MAX - 1 - p.length, by omega⟩
  have h1 : ¬ (t.headD NUL = SPACE ∧ t.headD NUL ≠ NUL) := fun h => ht h.1
  rw [hn, keyword_loop_prefix p t _ hnz, keyword_loop, char_at_append_length,
    char_at_append_length, List.headD_cons, if_neg h1, if_pos (Or.inl rfl), Nat.zero_add]

/-- A prefix of the keyword at the end of the line leaves through `return 0`. -/
theorem keyword_loop_prefix_eol (p t : List Nat) (hnz : ∀ c ∈ p, c ≠ NUL)
    (hlen : p.length < KEYWORD_LENGTH_MAX) :
    keyword_loop (p ++ t) p KEYWORD_LENGTH_MAX 0 0 = none := by
  obtain ⟨n, hn⟩ : ∃ n, KEYWORD_LENGTH_MAX = (n + 1) + p.length := ⟨KEYWORD_LENGTH_MAX - 1 - p.length, by omega⟩
  have h := keyword_loop_prefix p t [] hnz (n + 1) 0
  rw [List.append_nil] at h
  rw [hn, h, keyword_loop]
  have hc : char_at p p.length = NUL := by simp [char_at, List.getD_eq_getElem?_getD]
  rw [hc]
  simp [NUL, SPACE, cmdptr_is_null]

/-! ## The space loop -/

theorem le_skip_spaces : ∀ (l : List Nat) (i : Nat), i ≤ skip_spaces l i
  | [], _ => le_rfl
  | c :: rest, i => by
    unfold skip_spaces
    split
    · exact le_trans (Nat.le_succ i) (le_skip_spaces rest (i + 1))
    · exact le_rfl

theorem skip_spaces_replicate (rest : List Nat) (h : rest.head? ≠ some SPACE) :
    ∀ (k i : Nat), skip_spaces (List.replicate k SPACE ++ rest) i = i + k
  | 0, i => by
    cases rest with
    | nil => rfl
    | cons c r =>
      have hc : c ≠ SPACE := by simpa using h
      simp [skip_spaces, hc]
  | k + 1, i => by
    rw [List.replicate_succ, List.cons_append, skip_spaces, if_pos rfl,
      skip_spaces_replicate rest h k (i + 1)]
    omega

/-! ## Matching a keyword prefix -/

/-- What `match_keyword` does when the unconsumed input is a prefix of the
keyword followed by a space. -/
theorem match_keyword_prefix_space (F : KW_FLAGS) (knode : PARSER_NODE_KEYWORD)
    (ctl : PARSER_CTRL) (p t rest : List Nat) (hwf : keyword_wf knode)
    (hkw : knode.keyword = p ++ t) (hcmd : unconsumed ctl = p ++ SPACE :: rest) :
    match_keyword F (some knode) (some ctl) =
      if p.length < knode.minimum_match then (0, some ctl)
      else (((skip_spaces rest (p.length + 1) : Nat) : Int), some (apply_effect F knode ctl)) := by
  obtain ⟨_, hlen, hch⟩ := hwf
  rw [hkw] at hlen hch
  have hnz : ∀ c ∈ p, c ≠ NUL := fun c hc => (hch c (List.mem_append_left t hc)).1
  have ht : t.headD NUL ≠ SPACE := by
    cases t with
    | nil => simp [NUL, SPACE]
    | cons c r => simpa using (hch c (by simp)).2
  have hp : p.length < KEYWORD_LENGTH_MAX := by
    rw [List.length_append] at hlen; omega
  simp only [match_keyword, hkw, hcmd, keyword_loop_prefix_space p t rest hnz ht hp]
  split
  · rfl
  · simp [skip_spaces]

/-- What `match_keyword` does when the line ends after a prefix of the
keyword (the whole keyword included). -/
theorem match_keyword_prefix_eol (F : KW_FLAGS) (knode : PARSER_NODE_KEYWORD)
    (ctl : PARSER_CTRL) (p t : List Nat) (hwf : keyword_wf knode)
    (hkw : knode.keyword = p ++ t) (hcmd : unconsumed ctl = p) :
    match_keyword F (some knode) (some ctl) = (0, some ctl) := by
  obtain ⟨_, hlen, hch⟩ := hwf
  rw [hkw] at hlen hch
  have hnz : ∀ c ∈ p, c ≠ NUL := fun c hc => (hch c (List.mem_append_left t hc)).1
  have hp : p.length < KEYWORD_LENGTH_MAX := by
    rw [List.length_append] at hlen; omega
  simp only [match_keyword, hkw, hcmd, keyword_loop_prefix_eol p t hnz hp]



/-- If keyword and command line agree up to position `j` and position `j`
neither continues the match nor holds a space, the loop leaves through
`return 0`. -/
theorem keyword_loop_mismatch (kw cmd : List Nat) (j : Nat)
    (hj : ¬ (char_at kw j = char_at cmd j ∧ char_at kw j ≠ NUL))
    (hsp : char_at cmd j ≠ SPACE) :
    ∀ (n i m : Nat), i ≤ j → j < i + n →
      (∀ l, i ≤ l → l < j → char_at kw l = char_at cmd l) →
      keyword_loop kw cmd n i m = none
  | 0, i, _, h1, h2, _ => by omega
  | n + 1, i, m, h1, h2, hagree => by
    rw [keyword_loop]
    by_cases hij : i = j
    · subst hij
      rw [if_neg hj, if_neg (by simp [hsp, cmdptr_is_null])]
    · by_cases hc : char_at kw i = char_at cmd i ∧ char_at kw i ≠ NUL
      · rw [if_pos hc]
        exact keyword_loop_mismatch kw cmd j hj hsp n (i + 1) (m + 1) (by omega) (by omega)
          (fun l h3 h4 => hagree l (by omega) h4)
      · have he : char_at kw i = char_at cmd i := hagree i le_rfl (by omega)
        have hz : char_at cmd i = NUL := by
          by_contra hne
          exact hc ⟨he, by rw [he]; exact hne⟩
        rw [if_neg hc, if_neg (by simp [hz, NUL, SPACE, cmdptr_is_null])]


/-! ## The shape of a result -/

/-- With both pointers present `match_keyword` either reports a non-match and
leaves the context alone, or returns a length and runs the effect block
once. -/
theorem match_keyword_result (F : KW_FLAGS) (knode : PARSER_NODE_KEYWORD) (ctl : PARSER_CTRL) :
    match_keyword F (some knode) (some ctl) = (0, some ctl) ∨
      ∃ n : Nat, match_keyword F (some knode) (some ctl) =
        ((n : Int), some (apply_effect F knode ctl)) := by
  simp only [match_keyword]
  cases keyword_loop knode.keyword (unconsumed ctl) KEYWORD_LENGTH_MAX 0 0 with
  | none => exact Or.inl rfl
  | some v =>
    obtain ⟨i, m⟩ := v
    by_cases h : m < knode.minimum_match
    · left; simp only [if_pos h]
    · right; exact ⟨skip_spaces (List.drop i (unconsumed ctl)) i, by simp only [if_neg h]⟩

/-- The returned length depends on the control context only through the
unconsumed part of the command line. -/
theorem match_keyword_fst_congr (F : KW_FLAGS) (knode : PARSER_NODE_KEYWORD)
    (c1 c2 : PARSER_CTRL) (h : unconsumed c1 = unconsumed c2) :
    (match_keyword F (some knode) (some c1)).1 = (match_keyword F (some knode) (some c2)).1 := by
  simp only [match_keyword, h]
  cases keyword_loop knode.keyword (unconsumed c2) KEYWORD_LENGTH_MAX 0 0 with
  | none => rfl
  | some v =>
    obtain ⟨i, m⟩ := v
    by_cases hm : m < knode.minimum_match
    · simp only [if_pos hm]
    · simp only [if_neg hm]

/-- A successful match leaves the context produced by the effect block. -/
theorem match_keyword_success (F : KW_FLAGS) (knode : PARSER_NODE_KEYWORD) (ctl : PARSER_CTRL)
    (hok : 0 < (match_keyword F (some knode) (some ctl)).1) :
    (match_keyword F (some knode) (some ctl)).2 = some (apply_effect F knode ctl) := by
  rcases match_keyword_result F knode ctl with h | ⟨n, h⟩
  · rw [h] at hok; exact absurd hok (lt_irrefl _)
  · rw [h]

/-- Matching again on a context that differs only in its store, and on which
the effect block changes nothing, returns the same length and context. -/
theorem match_keyword_repeat (F : KW_FLAGS) (knode : PARSER_NODE_KEYWORD) (ctl c1 : PARSER_CTRL)
    (hline : unconsumed c1 = unconsumed ctl) (hfix : apply_effect F knode c1 = c1)
    (hok : 0 < (match_keyword F (some knode) (some ctl)).1) :
    match_keyword F (some knode) (some c1) =
      ((match_keyword F (some knode) (some ctl)).1, some c1) := by
  have h1 := match_keyword_fst_congr F knode c1 ctl hline
  have hok1 : 0 < (match_keyword F (some knode) (some c1)).1 := by rw [h1]; exact hok
  have h2 := match_keyword_success F knode c1 hok1
  rw [hfix] at h2
  exact Prod.ext h1 h2

/-! ## Bits of 64-bit integers -/

/-- Two integers with the same bits are equal. -/
theorem int_eq_of_testBit_eq (a b : Int) (h : ∀ k, a.testBit k = b.testBit k) : a = b := by
  have hfalse : ∀ m n : Nat, (∀ k, Nat.testBit m k = !Nat.testBit n k) → False := by
    intro m n hk
    have hm : Nat.testBit m (m + n) = false :=
      Nat.testBit_lt_two_pow (lt_of_lt_of_le (Nat.lt_two_pow m)
        (Nat.pow_le_pow_right (by decide) (Nat.le_add_right m n)))
    have hn : Nat.testBit n (m + n) = false :=
      Nat.testBit_lt_two_pow (lt_of_lt_of_le (Nat.lt_two_pow n)
        (Nat.pow_le_pow_right (by decide) (Nat.le_add_left n m)))
    have := hk (m + n)
    rw [hm, hn] at this
    exact absurd this (by decide)
  cases a with
  | ofNat m =>
    cases b with
    | ofNat n => exact congrArg Int.ofNat (Nat.eq_of_testBit_eq h)
    | negSucc n => exact (hfalse m n h).elim
  | negSucc m =>
    cases b with
    | ofNat n =>
      exact (hfalse n m (fun k => by
        have := h k
        simp only [Int.testBit] at this
        exact this.symm)).elim
    | negSucc n =>
      refine congrArg Int.negSucc (Nat.eq_of_testBit_eq (fun k => ?_))
      have := h k
      simp only [Int.testBit] at this
      exact Bool.not_inj this

/-- Setting the same bits twice is setting them once. -/
theorem int_lor_idem (a m : Int) : Int.lor (Int.lor a m) m = Int.lor a m := by
  apply int_eq_of_testBit_eq
  intro k
  simp only [Int.testBit_lor, Bool.or_assoc, Bool.or_self]

/-- Bit `k` of the 64-bit word of an integer. -/
theorem testBit_to_uint64 (n : Int) (k : Nat) :
    (to_uint64 n).testBit k = (decide (k < 64) && n.testBit k) := by
  cases n with
  | ofNat m =>
    have h : to_uint64 (Int.ofNat m) = m % 2 ^ 64 := by
      simp only [to_uint64, Int.ofNat_eq_coe]
      omega
    rw [h, Nat.testBit_mod_two_pow]
    rfl
  | negSucc m =>
    have h : to_uint64 (Int.negSucc m) = 2 ^ 64 - (m % 2 ^ 64 + 1) := by
      simp only [to_uint64, Int.negSucc_eq]
      omega
    rw [h, Nat.testBit_two_pow_sub_succ (Nat.mod_lt _ (by positivity)), Nat.testBit_mod_two_pow]
    simp only [Int.testBit]
    cases decide (k < 64) <;> simp

/-- The bits of `((int64_t)1) << b` for `0 ≤ b ≤ 63`, within the word. -/
theorem testBit_int64_shl_one (b : Int) (hb : 0 ≤ b ∧ b ≤ 63) (k : Nat) (hk : k < 64) :
    (int64_shl_one b).testBit k = decide (k = b.toNat) := by
  obtain ⟨n, rfl⟩ : ∃ n : Nat, b = (n : Int) := ⟨b.toNat, (Int.toNat_of_nonneg hb.1).symm⟩
  have hn : n ≤ 63 := by omega
  simp only [Int.toNat_ofNat]
  by_cases h63 : n = 63
  · subst h63
    have h : int64_shl_one ((63 : Nat) : Int) = Int.negSucc (2 ^ 63 - 1) := by decide
    rw [h]
    simp only [Int.testBit, Nat.testBit_two_pow_sub_one]
    by_cases hk63 : k = 63
    · subst hk63; decide
    · have : k < 63 := by omega
      simp [this, hk63]
  · have hlt : n < 63 := by omega
    have hp : (2 : Int) ^ n < 2 ^ 63 := by
      exact pow_lt_pow_right₀ (by norm_num) hlt
    have hp0 : (0 : Int) < 2 ^ n := by positivity
    have h : int64_shl_one (n : Int) = Int.ofNat (2 ^ n) := by
      simp only [int64_shl_one, to_int64, Int.toNat_ofNat, Int.ofNat_eq_coe, Nat.cast_pow,
        Nat.cast_ofNat]
      omega
    rw [h]
    simp only [Int.testBit, Nat.testBit_two_pow]
    by_cases hkn : k = n
    · subst hkn; simp
    · have : ¬ n = k := fun h => hkn h.symm
      simp [this, hkn]

/-- The range of `int64_t` in terms of the two constructors of the integers. -/
theorem in_int64_ofNat (a : Nat) : in_int64 (Int.ofNat a) ↔ a < 2 ^ 63 := by
  simp only [in_int64, Int.ofNat_eq_coe]
  omega

theorem in_int64_negSucc (a : Nat) : in_int64 (Int.negSucc a) ↔ a < 2 ^ 63 := by
  simp only [in_int64, Int.negSucc_eq]
  omega

theorem in_int64_to_int64 (n : Int) : in_int64 (to_int64 n) := by
  simp only [in_int64, to_int64]
  omega

theorem nat_ldiff_lt_two_pow (a b n : Nat) (h : a < 2 ^ n) : Nat.ldiff a b < 2 ^ n := by
  apply Nat.lt_pow_two_of_testBit
  intro i hi
  have ha : a.testBit i = false :=
    Nat.testBit_lt_two_pow (lt_of_lt_of_le h (Nat.pow_le_pow_right (by decide) hi))
  rw [Nat.testBit_ldiff, ha]
  rfl

/-- The bitwise OR of two `int64_t` values is an `int64_t` value. -/
theorem in_int64_lor (a m : Int) (ha : in_int64 a) (hm : in_int64 m) :
    in_int64 (Int.lor a m) := by
  cases a with
  | ofNat x =>
    cases m with
    | ofNat y =>
      rw [in_int64_ofNat] at ha hm
      exact (in_int64_ofNat _).2 (Nat.or_lt_two_pow ha hm)
    | negSucc y =>
      rw [in_int64_negSucc] at hm
      exact (in_int64_negSucc _).2 (nat_ldiff_lt_two_pow y x 63 hm)
  | negSucc x =>
    cases m with
    | ofNat y =>
      rw [in_int64_negSucc] at ha
      exact (in_int64_negSucc _).2 (nat_ldiff_lt_two_pow x y 63 ha)
    | negSucc y =>
      rw [in_int64_negSucc] at hm
      exact (in_int64_negSucc _).2 (Nat.and_lt_two_pow x hm)

/-! ## The store -/

theorem parser_control_get_integer_eq (ctl : PARSER_CTRL) (i : Nat) :
    parser_control_get_integer ctl i = ctl.integers[i]? := by
  unfold parser_control_get_integer
  split
  · next h => simp [List.getElem?_eq_getElem h]
  · next h => simp [List.getElem?_eq_none (Nat.le_of_not_lt h)]

theorem effect_set_integer_in_range (knode : PARSER_NODE_KEYWORD) (ctl : PARSER_CTRL)
    (h : knode.index < ctl.integers.length) :
    effect_set_integer knode ctl =
      { ctl with integers := ctl.integers.set knode.index knode.value } := by
  simp [effect_set_integer, parser_control_set_integer, h]

theorem effect_set_bit_in_range (knode : PARSER_NODE_KEYWORD) (ctl : PARSER_CTRL) (old : Int)
    (h : parser_control_get_integer ctl knode.index = some old) :
    effect_set_bit knode ctl =
      { ctl with integers :=
          ctl.integers.set knode.index (Int.lor old (int64_shl_one knode.value)) } := by
  have hlt : knode.index < ctl.integers.length := by
    rw [parser_control_get_integer_eq] at h
    exact (List.getElem?_eq_some_iff.1 h).1
  simp [effect_set_bit, h, parser_control_set_integer, hlt]

/-- No branch of the effect block writes both slot arrays, and none touches
the command line or the cursor. -/
theorem apply_effect_frame (F : KW_FLAGS) (knode : PARSER_NODE_KEYWORD) (ctl : PARSER_CTRL) :
    ((apply_effect F knode ctl).integers = ctl.integers ∨
        (apply_effect F knode ctl).strings = ctl.strings) ∧
      (apply_effect F knode ctl).command_line = ctl.command_line ∧
      (apply_effect F knode ctl).total_parsed = ctl.total_parsed := by
  unfold apply_effect effect_set_bit effect_set_string effect_set_integer
    parser_control_set_integer parser_control_set_string
  split_ifs <;> (try split) <;> simp

/-! ## The claims on matching -/

/-- C1: the whole keyword at the very end of the line. With keyword "show" and
minimum match 2 the line "show" is a non-match (the pointer test
`cmdptr == '\0'` never fires), while "show " is accepted with length 5. -/
theorem C1_full_keyword_at_end_of_line_returns_zero :
    keyword_wf (plain_keyword "show" 2) ∧
    (match_keyword kw_flags (some (plain_keyword "show" 2)) (some (ctl_at "show" 0))).1 = 0 ∧
    (match_keyword kw_flags (some (plain_keyword "show" 2)) (some (ctl_at "show " 0))).1 = 5 := by
  decide

/-- C2: a prefix of the keyword shorter than the minimum match, followed by a
space or by the end of the line, is a non-match: `match_keyword` returns 0 and
leaves the control context as it was. -/
theorem C2_prefix_below_minimum_match_rejected (F : KW_FLAGS) (knode : PARSER_NODE_KEYWORD)
    (ctl : PARSER_CTRL) (p rest : List Nat) (hwf : keyword_wf knode)
    (hp : p <+: knode.keyword) (hlen : p.length < knode.minimum_match)
    (hcmd : unconsumed ctl = p ++ rest) (hrest : rest = [] ∨ rest.head? = some SPACE) :
    match_keyword F (some knode) (some ctl) = (0, some ctl) := by
  obtain ⟨t, ht⟩ := hp
  rcases hrest with h | h
  · subst h
    rw [List.append_nil] at hcmd
    exact match_keyword_prefix_eol F knode ctl p t hwf ht.symm hcmd
  · cases rest with
    | nil => simp at h
    | cons c r =>
      have hc : c = SPACE := by simpa using h
      subst hc
      rw [match_keyword_prefix_space F knode ctl p t r hwf ht.symm hcmd, if_pos hlen]

/-- Witness for C2: keyword "show" with minimum match 3 against "sh ver". -/
theorem C2_prefix_below_minimum_match_rejected_witness :
    keyword_wf (plain_keyword "show" 3) ∧
    match_keyword kw_flags (some (plain_keyword "show" 3)) (some (ctl_at "sh ver" 0)) =
      (0, some (ctl_at "sh ver" 0)) :=
  ⟨by decide, C2_prefix_below_minimum_match_rejected kw_flags (plain_keyword "show" 3)
    (ctl_at "sh ver" 0) (bytes "sh") (bytes " ver") (by decide) (by decide) (by decide)
    (by decide) (by decide)⟩

/-- C3: the first `minimum_match` characters of the keyword followed by a space
are accepted: the returned length is positive and at least
`minimum_match + 1`. -/
theorem C3_minimum_match_prefix_accepted (F : KW_FLAGS) (knode : PARSER_NODE_KEYWORD)
    (ctl : PARSER_CTRL) (rest : List Nat) (hwf : keyword_wf knode)
    (hmin : knode.minimum_match ≤ knode.keyword.length)
    (hcmd : unconsumed ctl = knode.keyword.take knode.minimum_match ++ SPACE :: rest) :
    0 < (match_keyword F (some knode) (some ctl)).1 ∧
      (knode.minimum_match : Int) + 1 ≤ (match_keyword F (some knode) (some ctl)).1 := by
  have hl : (knode.keyword.take knode.minimum_match).length = knode.minimum_match := by
    rw [List.length_take]; omega
  rw [match_keyword_prefix_space F knode ctl _ (knode.keyword.drop knode.minimum_match) rest hwf
    (List.take_append_drop _ _).symm hcmd, hl, if_neg (lt_irrefl _)]
  have h := le_skip_spaces rest (knode.minimum_match + 1)
  constructor
  · show (0 : Int) < ((skip_spaces rest (knode.minimum_match + 1) : Nat) : Int)
    omega
  · show (knode.minimum_match : Int) + 1 ≤ ((skip_spaces rest (knode.minimum_match + 1) : Nat) : Int)
    omega

/-- Witness for C3: keyword "version" with minimum match 3 against "ver  x". -/
theorem C3_minimum_match_prefix_accepted_witness :
    0 < (match_keyword kw_flags (some (plain_keyword "version" 3)) (some (ctl_at "ver  x" 0))).1 ∧
      ((plain_keyword "version" 3).minimum_match : Int) + 1 ≤
        (match_keyword kw_flags (some (plain_keyword "version" 3)) (some (ctl_at "ver  x" 0))).1 :=
  C3_minimum_match_prefix_accepted kw_flags (plain_keyword "version" 3) (ctl_at "ver  x" 0)
    (bytes " x") (by decide) (by decide) (by decide)

/-- C4: a proper prefix of the keyword at the end of the line. With keyword
"show" and minimum match 2 the line "sh" is a non-match although "sh " is
accepted, so the end of the line does not terminate a prefix as a space
does. -/
theorem C4_prefix_at_end_of_line_returns_zero :
    (plain_keyword "show" 2).minimum_match ≤ (bytes "sh").length ∧
    (match_keyword kw_flags (some (plain_keyword "show" 2)) (some (ctl_at "sh" 0))).1 = 0 ∧
    (match_keyword kw_flags (some (plain_keyword "show" 2)) (some (ctl_at "sh " 0))).1 = 3 := by
  decide

/-- C5: the scenario "sh ver" against the keywords "show" and "version", both
with minimum match 2. The first match returns 3; the second, at cursor 3, is a
non-match because "ver" ends the line, so the cursor stops at 3 of 6. -/
theorem C5_scenario_sh_ver_stops_at_second_keyword :
    (match_keyword kw_flags (some (plain_keyword "show" 2)) (some (ctl_at "sh ver" 0))).1 = 3 ∧
    (match_keyword kw_flags (some (plain_keyword "version" 2)) (some (ctl_at "sh ver" 3))).1 = 0 ∧
    (bytes "sh ver").length = 6 := by
  decide

/-- C6: on a successful match of a keyword prefix `p` followed by a run of
`k ≥ 1` spaces, the returned length is exactly `length p + k`, and the
character of the command line at cursor plus returned length is not a
space. -/
theorem C6_trailing_spaces_absorbed (F : KW_FLAGS) (knode : PARSER_NODE_KEYWORD)
    (ctl : PARSER_CTRL) (p rest : List Nat) (k : Nat) (hwf : keyword_wf knode)
    (hp : p <+: knode.keyword) (hk : 1 ≤ k)
    (hcmd : unconsumed ctl = p ++ (List.replicate k SPACE ++ rest))
    (hrest : rest.head? ≠ some SPACE)
    (hok : 0 < (match_keyword F (some knode) (some ctl)).1) :
    (match_keyword F (some knode) (some ctl)).1 = ((p.length + k : Nat) : Int) ∧
      char_at ctl.command_line (ctl.total_parsed + (p.length + k)) ≠ SPACE := by
  obtain ⟨t, ht⟩ := hp
  obtain ⟨k', rfl⟩ : ∃ k', k = k' + 1 := ⟨k - 1, by omega⟩
  have hcmd' : unconsumed ctl = p ++ SPACE :: (List.replicate k' SPACE ++ rest) := by
    rw [hcmd, List.replicate_succ, List.cons_append]
  have hm := match_keyword_prefix_space F knode ctl p t _ hwf ht.symm hcmd'
  rw [skip_spaces_replicate rest hrest] at hm
  constructor
  · by_cases hlt : p.length < knode.minimum_match
    · rw [hm, if_pos hlt] at hok
      exact absurd hok (lt_irrefl _)
    · rw [hm, if_neg hlt]
      show ((p.length + 1 + k' : Nat) : Int) = ((p.length + (k' + 1) : Nat) : Int)
      omega
  · have hc : char_at (unconsumed ctl) (p.length + (k' + 1)) = rest.headD NUL := by
      have h := char_at_append_length (p ++ List.replicate (k' + 1) SPACE) rest
      rw [List.length_append, List.length_replicate, List.append_assoc] at h
      rw [hcmd]; exact h
    have hd : char_at ctl.command_line (ctl.total_parsed + (p.length + (k' + 1))) =
        char_at (unconsumed ctl) (p.length + (k' + 1)) := by
      simp [char_at, unconsumed, List.getD_eq_getElem?_getD]
    rw [hd, hc]
    cases rest with
    | nil => simp [NUL, SPACE]
    | cons c r => simpa using hrest

/-- Witness for C6: keyword "show", minimum match 2, against "sho   x" read
from cursor 0: three characters and three spaces are consumed. -/
theorem C6_trailing_spaces_absorbed_witness :
    (match_keyword kw_flags (some (plain_keyword "show" 2)) (some (ctl_at "sho   x" 0))).1 =
        (((bytes "sho").length + 3 : Nat) : Int) ∧
      char_at (ctl_at "sho   x" 0).command_line
        ((ctl_at "sho   x" 0).total_parsed + ((bytes "sho").length + 3)) ≠ SPACE :=
  C6_trailing_spaces_absorbed kw_flags (plain_keyword "show" 2) (ctl_at "sho   x" 0)
    (bytes "sho") (bytes "x") 3 (by decide) (by decide) (by decide) (by decide) (by decide)
    (by decide)

/-- C7: when the unconsumed input first differs from the keyword at a position
whose input character is neither a space nor the end of the line,
`match_keyword` returns 0 (a non-match, not a negative error code) and leaves
the control context as it was. -/
theorem C7_mismatch_is_non_match (F : KW_FLAGS) (knode : PARSER_NODE_KEYWORD)
    (ctl : PARSER_CTRL) (j : Nat) (hlen : knode.keyword.length < KEYWORD_LENGTH_MAX)
    (hagree : ∀ i, i < j → char_at knode.keyword i = char_at (unconsumed ctl) i)
    (hdiff : char_at knode.keyword j ≠ char_at (unconsumed ctl) j)
    (hchar : char_at (unconsumed ctl) j ≠ SPACE ∧ char_at (unconsumed ctl) j ≠ NUL) :
    match_keyword F (some knode) (some ctl) = (0, some ctl) := by
  have hsp := hchar.1
  have hnone : keyword_loop knode.keyword (unconsumed ctl) KEYWORD_LENGTH_MAX 0 0 = none := by
    by_cases hj : j < KEYWORD_LENGTH_MAX
    · exact keyword_loop_mismatch _ _ j (fun h => hdiff h.1) hsp KEYWORD_LENGTH_MAX 0 0
        (Nat.zero_le _) (by omega) (fun l _ h => hagree l h)
    · have hz : char_at knode.keyword knode.keyword.length = NUL := by
        simp [char_at, List.getD_eq_getElem?_getD]
      have hl : knode.keyword.length < j := by omega
      refine keyword_loop_mismatch _ _ knode.keyword.length (fun h => h.2 hz) ?_
        KEYWORD_LENGTH_MAX 0 0 (Nat.zero_le _) (by omega) (fun l _ h => hagree l (by omega))
      rw [← hagree _ hl, hz]
      simp [NUL, SPACE]
  simp only [match_keyword, hnone]

/-- Witness for C7: the input token "showing" against the keyword "show"
differs from it at position 4, where the input holds the letter i. -/
theorem C7_mismatch_is_non_match_witness :
    char_at (unconsumed (ctl_at "showing" 0)) 4 = 105 ∧
    match_keyword kw_flags (some (plain_keyword "show" 2)) (some (ctl_at "showing" 0)) =
      (0, some (ctl_at "showing" 0)) :=
  ⟨by decide, C7_mismatch_is_non_match kw_flags (plain_keyword "show" 2) (ctl_at "showing" 0) 4
    (by decide) (by decide) (by decide) (by decide)⟩

/-! ## The claims on effects -/

/-- C8: round trip and idempotence of the integer effect. For a node with the
set-value flag set and the bit and string flags clear, an index within the
integer slots and any previous contents, a successful match leaves the
configured value in the slot; a second match on the resulting context returns
the same length and leaves that context, hence the slot, as it is. -/
theorem C8_integer_effect_round_trip (F : KW_FLAGS) (knode : PARSER_NODE_KEYWORD)
    (ctl : PARSER_CTRL)
    (hv : knode.header.node_flags &&& F.PARSER_NODE_KW_FLAG_SET_VALUE ≠ 0)
    (hb : knode.header.node_flags &&& F.PARSER_NODE_KW_FLAG_SET_BIT = 0)
    (hs : knode.header.node_flags &&& F.PARSER_NODE_KW_FLAG_SET_STRING = 0)
    (hidx : knode.index < ctl.integers.length)
    (hok : 0 < (match_keyword F (some knode) (some ctl)).1) :
    ∃ ctl1 : PARSER_CTRL,
      (match_keyword F (some knode) (some ctl)).2 = some ctl1 ∧
      parser_control_get_integer ctl1 knode.index = some knode.value ∧
      match_keyword F (some knode) (some ctl1) =
        ((match_keyword F (some knode) (some ctl)).1, some ctl1) := by
  have heff : ∀ c : PARSER_CTRL, apply_effect F knode c = effect_set_integer knode c := by
    intro c
    simp only [apply_effect, if_pos hv, hb, hs, ne_eq, not_true_eq_false, if_false]
  have hc1 := effect_set_integer_in_range knode ctl hidx
  refine ⟨effect_set_integer knode ctl, ?_, ?_, ?_⟩
  · rw [match_keyword_success F knode ctl hok, heff]
  · rw [hc1, parser_control_get_integer_eq]
    simp [hidx]
  · refine match_keyword_repeat F knode ctl _ ?_ ?_ hok
    · rw [hc1]; rfl
    · rw [heff, hc1, effect_set_integer_in_range knode _ (by simpa using hidx)]
      simp [List.set_set]

/-- Witness for C8: keyword "show" writing 7 into slot 2, which held 9. -/
theorem C8_integer_effect_round_trip_witness :
    ∃ ctl1 : PARSER_CTRL,
      (match_keyword kw_flags (some (keyword_node 0x40 "show" 2 2 7 ""))
        (some (ctl_store "show now" 0 [0, 0, 9, 0]))).2 = some ctl1 ∧
      parser_control_get_integer ctl1 (keyword_node 0x40 "show" 2 2 7 "").index =
        some (keyword_node 0x40 "show" 2 2 7 "").value ∧
      match_keyword kw_flags (some (keyword_node 0x40 "show" 2 2 7 "")) (some ctl1) =
        ((match_keyword kw_flags (some (keyword_node 0x40 "show" 2 2 7 ""))
          (some (ctl_store "show now" 0 [0, 0, 9, 0]))).1, some ctl1) :=
  C8_integer_effect_round_trip kw_flags (keyword_node 0x40 "show" 2 2 7 "")
    (ctl_store "show now" 0 [0, 0, 9, 0]) (by decide) (by decide) (by decide) (by decide)
    (by decide)

/-- C9: the bit effect is a read-modify-write. For a node with the set-value
and set-bit flags set, a bit position `b` in `0..63` and a slot in range
holding `old`, a successful match leaves in the slot the value
`new = old | ((int64_t)1 << b)`: its 64-bit word is the word of `old` OR `2^b`,
it is again an `int64_t`, every bit set in `old` is set in `new`, and no bit of
the word other than `b` differs. Every other integer slot and all string slots
are unchanged, and a second match returns the same length and changes
nothing. -/
theorem C9_bit_effect_read_modify_write (F : KW_FLAGS) (knode : PARSER_NODE_KEYWORD)
    (ctl : PARSER_CTRL) (old : Int)
    (hv : knode.header.node_flags &&& F.PARSER_NODE_KW_FLAG_SET_VALUE ≠ 0)
    (hb : knode.header.node_flags &&& F.PARSER_NODE_KW_FLAG_SET_BIT ≠ 0)
    (hbit : 0 ≤ knode.value ∧ knode.value ≤ 63)
    (hold : parser_control_get_integer ctl knode.index = some old)
    (hok : 0 < (match_keyword F (some knode) (some ctl)).1) :
    ∃ (new : Int) (ctl1 : PARSER_CTRL),
      new = Int.lor old (int64_shl_one knode.value) ∧
      (match_keyword F (some knode) (some ctl)).2 = some ctl1 ∧
      parser_control_get_integer ctl1 knode.index = some new ∧
      to_uint64 new = to_uint64 old ||| 2 ^ knode.value.toNat ∧
      (in_int64 old → in_int64 new) ∧
      (∀ k, old.testBit k = true → new.testBit k = true) ∧
      (∀ k, k < 64 → k ≠ knode.value.toNat → new.testBit k = old.testBit k) ∧
      (∀ j, j ≠ knode.index →
        parser_control_get_integer ctl1 j = parser_control_get_integer ctl j) ∧
      ctl1.strings = ctl.strings ∧
      match_keyword F (some knode) (some ctl1) =
        ((match_keyword F (some knode) (some ctl)).1, some ctl1) := by
  have heff : ∀ c : PARSER_CTRL, apply_effect F knode c = effect_set_bit knode c := by
    intro c
    simp only [apply_effect, if_pos hv, if_pos hb]
  have hlt : knode.index < ctl.integers.length := by
    rw [parser_control_get_integer_eq] at hold
    exact (List.getElem?_eq_some_iff.1 hold).1
  have hc1 := effect_set_bit_in_range knode ctl old hold
  refine ⟨Int.lor old (int64_shl_one knode.value), effect_set_bit knode ctl, rfl, ?_, ?_, ?_,
    ?_, ?_, ?_, ?_, ?_, ?_⟩
  · rw [match_keyword_success F knode ctl hok, heff]
  · rw [hc1, parser_control_get_integer_eq]
    simp [hlt]
  · apply Nat.eq_of_testBit_eq
    intro k
    rw [Nat.testBit_or, testBit_to_uint64, testBit_to_uint64, Int.testBit_lor,
      Nat.testBit_two_pow]
    by_cases hk : k < 64
    · rw [testBit_int64_shl_one knode.value hbit k hk]
      simp only [hk, decide_True, Bool.true_and, eq_comm]
    · have hne : ¬ knode.value.toNat = k := by omega
      simp [hk, hne]
  · intro ho
    exact in_int64_lor old _ ho (in_int64_to_int64 _)
  · intro k hk
    rw [Int.testBit_lor, hk, Bool.true_or]
  · intro k hk hne
    rw [Int.testBit_lor, testBit_int64_shl_one knode.value hbit k hk]
    simp [hne]
  · intro j hj
    rw [hc1, parser_control_get_integer_eq, parser_control_get_integer_eq]
    simp [List.getElem?_set_ne (Ne.symm hj)]
  · rw [hc1]
  · refine match_keyword_repeat F knode ctl _ ?_ ?_ hok
    · rw [hc1]; rfl
    · have hnew : parser_control_get_integer (effect_set_bit knode ctl) knode.index =
          some (Int.lor old (int64_shl_one knode.value)) := by
        rw [hc1, parser_control_get_integer_eq]
        simp [hlt]
      rw [heff, effect_set_bit_in_range knode _ _ hnew, int_lor_idem, hc1]
      simp [List.set_set]

/-- Witness for C9: keyword "show" setting bit 3 of slot 1, which held 5. -/
theorem C9_bit_effect_read_modify_write_witness :
    parser_control_get_integer (ctl_store "sh  ow" 0 [0, 5, 0, 0]) 1 = some 5 ∧
    ∃ (new : Int) (ctl1 : PARSER_CTRL),
      new = Int.lor 5 (int64_shl_one (keyword_node 0xC0 "sh" 2 1 3 "").value) ∧
      (match_keyword kw_flags (some (keyword_node 0xC0 "sh" 2 1 3 ""))
        (some (ctl_store "sh  ow" 0 [0, 5, 0, 0]))).2 = some ctl1 ∧
      parser_control_get_integer ctl1 (keyword_node 0xC0 "sh" 2 1 3 "").index = some new ∧
      to_uint64 new = to_uint64 5 ||| 2 ^ (keyword_node 0xC0 "sh" 2 1 3 "").value.toNat ∧
      (in_int64 5 → in_int64 new) ∧
      (∀ k, (5 : Int).testBit k = true → new.testBit k = true) ∧
      (∀ k, k < 64 → k ≠ (keyword_node 0xC0 "sh" 2 1 3 "").value.toNat →
        new.testBit k = (5 : Int).testBit k) ∧
      (∀ j, j ≠ (keyword_node 0xC0 "sh" 2 1 3 "").index →
        parser_control_get_integer ctl1 j =
          parser_control_get_integer (ctl_store "sh  ow" 0 [0, 5, 0, 0]) j) ∧
      ctl1.strings = (ctl_store "sh  ow" 0 [0, 5, 0, 0]).strings ∧
      match_keyword kw_flags (some (keyword_node 0xC0 "sh" 2 1 3 "")) (some ctl1) =
        ((match_keyword kw_flags (some (keyword_node 0xC0 "sh" 2 1 3 ""))
          (some (ctl_store "sh  ow" 0 [0, 5, 0, 0]))).1, some ctl1) :=
  ⟨by decide, C9_bit_effect_read_modify_write kw_flags (keyword_node 0xC0 "sh" 2 1 3 "")
    (ctl_store "sh  ow" 0 [0, 5, 0, 0]) 5 (by decide) (by decide) (by decide) (by decide)
    (by decide)⟩

/-- C10, as stated, fails: a node whose flag word is zero matches "show "
with length 5 and leaves the control context as it was, which is the result of
none of the three effects (the integer write would store 5 in slot 0, the bit
set would store 32 there, the string write would store "x" in string
slot 0). -/
theorem C10_no_effect_without_set_value_flag :
    0 < (match_keyword kw_flags (some (keyword_node 0 "show" 2 0 5 "x"))
      (some (ctl_at "show " 0))).1 ∧
    (match_keyword kw_flags (some (keyword_node 0 "show" 2 0 5 "x"))
      (some (ctl_at "show " 0))).2 = some (ctl_at "show " 0) ∧
    ctl_at "show " 0 ≠ effect_set_integer (keyword_node 0 "show" 2 0 5 "x") (ctl_at "show " 0) ∧
    ctl_at "show " 0 ≠ effect_set_bit (keyword_node 0 "show" 2 0 5 "x") (ctl_at "show " 0) ∧
    ctl_at "show " 0 ≠ effect_set_string (keyword_node 0 "show" 2 0 5 "x") (ctl_at "show " 0) := by
  decide

/-- C10, amended: a successful match of a node whose set-value flag is set
runs exactly one branch of the effect block on the context, selected by the
other flags: the bit set when the set-bit flag is set, otherwise the string
write when the set-string flag is set, otherwise the integer write. A node
whose set-value flag is clear gets no effect: the context is unchanged. In
every case at most one of the two slot arrays differs from before. -/
theorem C10_effect_selected_by_flags (F : KW_FLAGS) (knode : PARSER_NODE_KEYWORD)
    (ctl : PARSER_CTRL) (hok : 0 < (match_keyword F (some knode) (some ctl)).1) :
    (knode.header.node_flags &&& F.PARSER_NODE_KW_FLAG_SET_VALUE = 0 →
      (match_keyword F (some knode) (some ctl)).2 = some ctl) ∧
    (knode.header.node_flags &&& F.PARSER_NODE_KW_FLAG_SET_VALUE ≠ 0 →
      knode.header.node_flags &&& F.PARSER_NODE_KW_FLAG_SET_BIT ≠ 0 →
      (match_keyword F (some knode) (some ctl)).2 = some (effect_set_bit knode ctl)) ∧
    (knode.header.node_flags &&& F.PARSER_NODE_KW_FLAG_SET_VALUE ≠ 0 →
      knode.header.node_flags &&& F.PARSER_NODE_KW_FLAG_SET_BIT = 0 →
      knode.header.node_flags &&& F.PARSER_NODE_KW_FLAG_SET_STRING ≠ 0 →
      (match_keyword F (some knode) (some ctl)).2 = some (effect_set_string knode ctl)) ∧
    (knode.header.node_flags &&& F.PARSER_NODE_KW_FLAG_SET_VALUE ≠ 0 →
      knode.header.node_flags &&& F.PARSER_NODE_KW_FLAG_SET_BIT = 0 →
      knode.header.node_flags &&& F.PARSER_NODE_KW_FLAG_SET_STRING = 0 →
      (match_keyword F (some knode) (some ctl)).2 = some (effect_set_integer knode ctl)) ∧
    (∀ ctl1, (match_keyword F (some knode) (some ctl)).2 = some ctl1 →
      ctl1.integers = ctl.integers ∨ ctl1.strings = ctl.strings) := by
  have h := match_keyword_success F knode ctl hok
  refine ⟨?_, ?_, ?_, ?_, ?_⟩
  · intro hv
    rw [h, apply_effect, if_neg (not_not.2 hv)]
  · intro hv hb
    rw [h, apply_effect, if_pos hv, if_pos hb]
  · intro hv hb hs
    rw [h, apply_effect, if_pos hv, if_neg (not_not.2 hb), if_pos hs]
  · intro hv hb hs
    rw [h, apply_effect, if_pos hv, if_neg (not_not.2 hb), if_neg (not_not.2 hs)]
  · intro ctl1 h1
    rw [h] at h1
    cases h1
    exact (apply_effect_frame F knode ctl).1

/-- Witness for C10 (amended): keyword "show" with the set-value and
set-string flags against "show ". -/
theorem C10_effect_selected_by_flags_witness :
    0 < (match_keyword kw_flags (some (keyword_node 0x840 "show" 2 1 5 "x"))
      (some (ctl_at "show " 0))).1 ∧
    (match_keyword kw_flags (some (keyword_node 0x840 "show" 2 1 5 "x"))
      (some (ctl_at "show " 0))).2 =
        some (effect_set_string (keyword_node 0x840 "show" 2 1 5 "x") (ctl_at "show " 0)) :=
  ⟨by decide, (C10_effect_selected_by_flags kw_flags (keyword_node 0x840 "show" 2 1 5 "x")
    (ctl_at "show " 0) (by decide)).2.2.1 (by decide) (by decide) (by decide)⟩


/-! ## Paths through `match_keyword` -/

/-- When the character loop ends by `break` or by its bound at position `i'`,
it has advanced, every character before `i'` is a matched keyword character
(so none is NUL), and a stop before the bound is on a space. -/
theorem keyword_loop_some (kw cmd : List Nat) :
    ∀ (n i m i' m' : Nat), keyword_loop kw cmd n i m = some (i', m') →
      i ≤ i' ∧ (∀ l, i ≤ l → l < i' → char_at cmd l ≠ NUL) ∧
        (i' < i + n → char_at cmd i' = SPACE)
  | 0, i, m, i', m', h => by
    simp only [keyword_loop, Option.some.injEq, Prod.mk.injEq] at h
    obtain ⟨rfl, _⟩ := h
    exact ⟨le_rfl, fun l h1 h2 => by omega, fun h => by omega⟩
  | n + 1, i, m, i', m', h => by
    rw [keyword_loop] at h
    by_cases hc : char_at kw i = char_at cmd i ∧ char_at kw i ≠ NUL
    · rw [if_pos hc] at h
      obtain ⟨h1, h2, h3⟩ := keyword_loop_some kw cmd n (i + 1) (m + 1) i' m' h
      refine ⟨by omega, fun l hl1 hl2 => ?_, fun hlt => h3 (by omega)⟩
      by_cases hli : l = i
      · subst hli; rw [← hc.1]; exact hc.2
      · exact h2 l (by omega) hl2
    · rw [if_neg hc] at h
      by_cases hs : char_at cmd i = SPACE ∨ cmdptr_is_null = true
      · rw [if_pos hs] at h
        simp only [Option.some.injEq, Prod.mk.injEq] at h
        obtain ⟨rfl, _⟩ := h
        refine ⟨le_rfl, fun l h1 h2 => by omega, fun _ => ?_⟩
        rcases hs with hs | hs
        · exact hs
        · exact absurd hs (by decide)
      · rw [if_neg hs] at h
        exact absurd h (by simp)

/-- The space loop only steps over spaces. -/
theorem skip_spaces_spaces : ∀ (r : List Nat) (i l : Nat), i ≤ l → l < skip_spaces r i →
    char_at r (l - i) = SPACE
  | [], i, l, h1, h2 => by
    simp only [skip_spaces] at h2; omega
  | c :: rest, i, l, h1, h2 => by
    rw [skip_spaces] at h2
    by_cases hc : c = SPACE
    · rw [if_pos hc] at h2
      by_cases hli : l = i
      · subst hli; simp [char_at, hc]
      · have h := skip_spaces_spaces rest (i + 1) l (by omega) h2
        have hsub : l - i = (l - (i + 1)) + 1 := by omega
        rw [hsub]
        simpa [char_at] using h
    · rw [if_neg hc] at h2; omega

theorem char_at_drop (cmd : List Nat) (i j : Nat) :
    char_at (cmd.drop i) j = char_at cmd (i + j) := by
  simp [char_at, List.getD_eq_getElem?_getD]

/-- A span of characters none of which is NUL lies within the list. -/
theorem le_length_of_no_nul (cmd : List Nat) (n : Nat)
    (h : ∀ l, l < n → char_at cmd l ≠ NUL) : n ≤ cmd.length := by
  by_contra hlt
  exact h cmd.length (by omega) (by simp [char_at, List.getD_eq_getElem?_getD])

/-- The two kinds of path through `match_keyword`: a `return 0`, which leaves
the context alone, or the final `return match`, which returns a length of at
least one, spanning only characters before the terminator of the line, and
runs the effect block once. -/
theorem match_keyword_paths (F : KW_FLAGS) (knode : PARSER_NODE_KEYWORD) (ctl : PARSER_CTRL) :
    (reaches_return_match knode ctl = false ∧
        match_keyword F (some knode) (some ctl) = (0, some ctl)) ∨
      (reaches_return_match knode ctl = true ∧
        ∃ n : Nat, 1 ≤ n ∧ (∀ l, l < n → char_at (unconsumed ctl) l ≠ NUL) ∧
          match_keyword F (some knode) (some ctl) =
            ((n : Int), some (apply_effect F knode ctl))) := by
  simp only [match_keyword, reaches_return_match]
  cases hloop : keyword_loop knode.keyword (unconsumed ctl) KEYWORD_LENGTH_MAX 0 0 with
  | none => exact Or.inl ⟨rfl, rfl⟩
  | some v =>
    obtain ⟨i, m⟩ := v
    by_cases hm : m < knode.minimum_match
    · left; simp [hm]
    · right
      obtain ⟨_, hnn, hsp⟩ := keyword_loop_some _ _ _ _ _ _ _ hloop
      refine ⟨by simp [hm], skip_spaces (List.drop i (unconsumed ctl)) i, ?_, ?_, by simp [hm]⟩
      · by_cases hi : i = 0
        · subst hi
          have h0 : char_at (unconsumed ctl) 0 = SPACE := hsp (by decide)
          cases hu : unconsumed ctl with
          | nil => rw [hu] at h0; exact absurd h0 (by decide)
          | cons c r =>
            rw [hu] at h0
            have hc : c = SPACE := by simpa [char_at] using h0
            rw [List.drop_zero, skip_spaces, if_pos hc]
            exact le_skip_spaces r 1
        · exact le_trans (by omega) (le_skip_spaces _ i)
      · intro l hl
        by_cases hli : l < i
        · exact hnn l (Nat.zero_le _) hli
        · have h := skip_spaces_spaces _ i l (by omega) hl
          rw [char_at_drop, show i + (l - i) = l by omega] at h
          rw [h]; decide

/-- Away from the configured index no branch of the effect block changes a
slot, and none changes the number of slots. -/
theorem apply_effect_other_slots (F : KW_FLAGS) (knode : PARSER_NODE_KEYWORD)
    (ctl : PARSER_CTRL) :
    (∀ j, j ≠ knode.index →
        (apply_effect F knode ctl).integers[j]? = ctl.integers[j]? ∧
          (apply_effect F knode ctl).strings[j]? = ctl.strings[j]?) ∧
      (apply_effect F knode ctl).integers.length = ctl.integers.length ∧
      (apply_effect F knode ctl).strings.length = ctl.strings.length := by
  unfold apply_effect effect_set_bit effect_set_string effect_set_integer
    parser_control_set_integer parser_control_set_string
  split_ifs <;> (try split) <;>
    simp +contextual [List.getElem?_set_ne, Ne.symm]

/-- What `match_keyword` does when the unconsumed input is a prefix of the
keyword followed by a character that is neither a space nor the next
character of the keyword. -/
theorem match_keyword_prefix_other (F : KW_FLAGS) (knode : PARSER_NODE_KEYWORD)
    (ctl : PARSER_CTRL) (p t rest : List Nat) (c : Nat)
    (hlen : knode.keyword.length < KEYWORD_LENGTH_MAX)
    (hkw : knode.keyword = p ++ t) (hcmd : unconsumed ctl = p ++ c :: rest)
    (hc : c ≠ SPACE) (ht : t.headD NUL ≠ c) :
    match_keyword F (some knode) (some ctl) = (0, some ctl) := by
  have hp : p.length < KEYWORD_LENGTH_MAX := by
    rw [hkw, List.length_append] at hlen; omega
  have hnone : keyword_loop knode.keyword (unconsumed ctl) KEYWORD_LENGTH_MAX 0 0 = none := by
    rw [hkw, hcmd]
    refine keyword_loop_mismatch _ _ p.length ?_ ?_ KEYWORD_LENGTH_MAX 0 0 (Nat.zero_le _)
      (by omega) (fun l _ h => ?_)
    · rw [char_at_append_length, char_at_append_length, List.headD_cons]
      exact fun h => ht h.1
    · rw [char_at_append_length, List.headD_cons]
      exact hc
    · rw [char_at_append_left p t l h, char_at_append_left p _ l h]
  simp only [match_keyword, hnone]

/-! ## The C string of a display buffer -/

theorem c_string_append_nul : ∀ (l r : List Nat), c_string (c_string l ++ NUL :: r) = c_string l
  | [], r => by simp [c_string, NUL]
  | a :: l, r => by
    have ih := c_string_append_nul l r
    by_cases ha : a = NUL
    · subst ha; simp [c_string, NUL]
    · simp only [c_string] at ih ⊢
      simp [List.takeWhile_cons, ha, ih]

theorem c_string_length_le (l : List Nat) : (c_string l).length ≤ l.length := by
  unfold c_string
  exact (List.takeWhile_sublist _).length_le

/-! ## The claims on results, types and frames -/

/-- C11: no rollback on a failed effect. On the same unconsumed input, a
context whose store rejects the node's index (every store call of the effect
block reports an error) gets the same positive length from `match_keyword` as
a context on which the match succeeds; the failure is not reported and nothing
is written. -/
theorem C11_failed_effect_keeps_the_match (F : KW_FLAGS) (knode : PARSER_NODE_KEYWORD)
    (ctl_ok ctl_fail : PARSER_CTRL) (hline : unconsumed ctl_fail = unconsumed ctl_ok)
    (hfail : ctl_fail.integers.length ≤ knode.index ∧ ctl_fail.strings.length ≤ knode.index)
    (hok : 0 < (match_keyword F (some knode) (some ctl_ok)).1) :
    parser_control_get_integer ctl_fail knode.index = none ∧
    parser_control_set_integer ctl_fail knode.index knode.value = none ∧
    parser_control_set_string ctl_fail knode.index knode.string = none ∧
    (match_keyword F (some knode) (some ctl_fail)).1 =
      (match_keyword F (some knode) (some ctl_ok)).1 ∧
    0 < (match_keyword F (some knode) (some ctl_fail)).1 ∧
    (match_keyword F (some knode) (some ctl_fail)).2 = some ctl_fail := by
  have h1 := match_keyword_fst_congr F knode ctl_fail ctl_ok hline
  have hpos : 0 < (match_keyword F (some knode) (some ctl_fail)).1 := by rw [h1]; exact hok
  have hg : parser_control_get_integer ctl_fail knode.index = none := by
    simp [parser_control_get_integer, Nat.not_lt.2 hfail.1]
  have hsi : ∀ v, parser_control_set_integer ctl_fail knode.index v = none := by
    intro v; simp [parser_control_set_integer, Nat.not_lt.2 hfail.1]
  have hss : parser_control_set_string ctl_fail knode.index knode.string = none := by
    simp [parser_control_set_string, Nat.not_lt.2 hfail.2]
  refine ⟨hg, hsi _, hss, h1, hpos, ?_⟩
  rw [match_keyword_success F knode ctl_fail hpos]
  congr 1
  unfold apply_effect effect_set_bit effect_set_string effect_set_integer
  rw [hg, hsi, hss]
  split_ifs <;> rfl

/-- Witness for C11: keyword "show" writing 7 into slot 9 of a store with four
integer slots and two string slots. -/
theorem C11_failed_effect_keeps_the_match_witness :
    parser_control_get_integer (ctl_at "show x" 0) 9 = none ∧
    (match_keyword kw_flags (some (keyword_node 0x40 "show" 2 9 7 "")) (some (ctl_at "show x" 0))).1
      = 5 :=
  ⟨by decide, ((C11_failed_effect_keeps_the_match kw_flags (keyword_node 0x40 "show" 2 9 7 "")
    (ctl_store "show x" 0 [0, 0, 0, 0, 0, 0, 0, 0, 0, 0]) (ctl_at "show x" 0) (by decide)
    (by decide) (by decide)).2.2.2.1).trans (by decide)⟩

/-- C12: the values of the public node type enumeration increase strictly in
the order keyword, integer, float, IP address, MAC address, conditional,
constant, keyword trie, string, `CISCLI_NODE_TYPE_MAX`; hence a type of a
higher priority class of the spec always has the lower value. -/
theorem C12_public_node_type_order :
    ciscli_node_type.CISCLI_KEYWORD.val < ciscli_node_type.CISCLI_INTEGER.val ∧
    ciscli_node_type.CISCLI_INTEGER.val < ciscli_node_type.CISCLI_FLOAT.val ∧
    ciscli_node_type.CISCLI_FLOAT.val < ciscli_node_type.CISCLI_IPADDR.val ∧
    ciscli_node_type.CISCLI_IPADDR.val < ciscli_node_type.CISCLI_MACADDR.val ∧
    ciscli_node_type.CISCLI_MACADDR.val < ciscli_node_type.CISCLI_CONDITIONAL.val ∧
    ciscli_node_type.CISCLI_CONDITIONAL.val < ciscli_node_type.CISCLI_CONSTANT.val ∧
    ciscli_node_type.CISCLI_CONSTANT.val < ciscli_node_type.CISCLI_KW_TRIE.val ∧
    ciscli_node_type.CISCLI_KW_TRIE.val < ciscli_node_type.CISCLI_STRING.val ∧
    ciscli_node_type.CISCLI_STRING.val < ciscli_node_type.CISCLI_NODE_TYPE_MAX.val ∧
    (∀ a b : ciscli_node_type, spec_priority_rank a < spec_priority_rank b → a.val < b.val) := by
  refine ⟨by decide, by decide, by decide, by decide, by decide, by decide, by decide,
    by decide, by decide, ?_⟩
  intro a b
  cases a <;> cases b <;> decide

/-- C13: the alternative text of a keyword node. When the allocation succeeds
and the keyword ends within its array, the buffer returned by `disp_keyword`
holds the C string of the keyword; for a missing node it holds "NULL". -/
theorem C13_disp_keyword_alt_text (block : List Nat) (knode : PARSER_NODE_KEYWORD)
    (ctl : Option PARSER_CTRL) (hlen : knode.keyword.length < KEYWORD_LENGTH_MAX) :
    (∃ buf, disp_keyword (some block) (some knode) ctl = some buf ∧
      c_string buf = c_string knode.keyword) ∧
    (∃ buf, disp_keyword (some block) none ctl = some buf ∧ c_string buf = bytes "NULL") := by
  constructor
  · refine ⟨_, rfl, ?_⟩
    have htake : knode.keyword.take KEYWORD_LENGTH_MAX = knode.keyword :=
      List.take_of_length_le (le_of_lt hlen)
    have hle := c_string_length_le knode.keyword
    obtain ⟨k, hk⟩ : ∃ k, KEYWORD_LENGTH_MAX - (c_string knode.keyword).length = k + 1 :=
      ⟨KEYWORD_LENGTH_MAX - (c_string knode.keyword).length - 1, by omega⟩
    rw [strncpy, htake, hk, List.replicate_succ, List.append_assoc, List.cons_append,
      c_string_append_nul]
  · refine ⟨_, rfl, ?_⟩
    rw [strcpy, c_string_append_nul]
    decide

/-- Witness for C13: the keyword "show" copied into a block of 32 bytes that
all hold 7. -/
theorem C13_disp_keyword_alt_text_witness :
    (∃ buf, disp_keyword (some (List.replicate 32 7)) (some (plain_keyword "show" 2)) none =
        some buf ∧ c_string buf = c_string (plain_keyword "show" 2).keyword) ∧
    (∃ buf, disp_keyword (some (List.replicate 32 7)) none none = some buf ∧
      c_string buf = bytes "NULL") :=
  C13_disp_keyword_alt_text (List.replicate 32 7) (plain_keyword "show" 2) none (by decide)

/-- C14, as stated, fails: in `parser_node_type_e` the conditional type does
not come before the constant type, nor the constant type before the string
type. -/
theorem C14_internal_order_differs_from_priority :
    init_keyword_node_type = parser_node_type_e.PARSER_NODE_TYPE_KEYWORD ∧
    ¬ (parser_node_type_e.PARSER_NODE_TYPE_INTEGER.val <
        parser_node_type_e.PARSER_NODE_TYPE_CONDITIONAL.val ∧
      parser_node_type_e.PARSER_NODE_TYPE_CONDITIONAL.val <
        parser_node_type_e.PARSER_NODE_TYPE_CONSTANT.val ∧
      parser_node_type_e.PARSER_NODE_TYPE_CONSTANT.val <
        parser_node_type_e.PARSER_NODE_TYPE_STRING.val) ∧
    ¬ (parser_node_type_e.PARSER_NODE_TYPE_CONDITIONAL.val <
        parser_node_type_e.PARSER_NODE_TYPE_CONSTANT.val) ∧
    ¬ (parser_node_type_e.PARSER_NODE_TYPE_CONSTANT.val <
        parser_node_type_e.PARSER_NODE_TYPE_STRING.val) := by
  decide

/-- C14, amended: `parser_node_type_e`, under whose keyword value the keyword
node registers, orders the types keyword, integer, string, constant,
conditional. -/
theorem C14_internal_node_type_order :
    init_keyword_node_type.val = 1 ∧
    parser_node_type_e.PARSER_NODE_TYPE_KEYWORD.val <
      parser_node_type_e.PARSER_NODE_TYPE_INTEGER.val ∧
    parser_node_type_e.PARSER_NODE_TYPE_INTEGER.val <
      parser_node_type_e.PARSER_NODE_TYPE_STRING.val ∧
    parser_node_type_e.PARSER_NODE_TYPE_STRING.val <
      parser_node_type_e.PARSER_NODE_TYPE_CONSTANT.val ∧
    parser_node_type_e.PARSER_NODE_TYPE_CONSTANT.val <
      parser_node_type_e.PARSER_NODE_TYPE_CONDITIONAL.val := by
  decide

/-- C15, as stated, fails: with keyword "show" and minimum match 2 the input
"sh" followed by a tab is a non-match, while "sh" followed by a space is
accepted with length 3. -/
theorem C15_tab_does_not_terminate_a_prefix :
    (plain_keyword "show" 2).minimum_match ≤ (bytes "sh").length ∧
    (match_keyword kw_flags (some (plain_keyword "show" 2))
      (some (ctl_line (bytes "sh" ++ TAB :: bytes "ver") 0))).1 = 0 ∧
    (match_keyword kw_flags (some (plain_keyword "show" 2))
      (some (ctl_line (bytes "sh" ++ SPACE :: bytes "ver") 0))).1 = 3 := by
  decide

/-- C15, amended: only the space character terminates a keyword prefix. For a
prefix `p` of the keyword with `length p ≥ minimum_match`, `p` followed by a
tab is a non-match (0 is returned, nothing is absorbed and the context is left
alone), while `p` followed by a space is accepted and the space is absorbed
into the returned length. -/
theorem C15_only_space_terminates_a_prefix (F : KW_FLAGS) (knode : PARSER_NODE_KEYWORD)
    (ctl_tab ctl_space : PARSER_CTRL) (p rest : List Nat) (hwf : keyword_wf knode)
    (hnotab : ∀ c ∈ knode.keyword, c ≠ TAB) (hp : p <+: knode.keyword)
    (hmin : knode.minimum_match ≤ p.length)
    (htab : unconsumed ctl_tab = p ++ TAB :: rest)
    (hspace : unconsumed ctl_space = p ++ SPACE :: rest) :
    match_keyword F (some knode) (some ctl_tab) = (0, some ctl_tab) ∧
      (p.length : Int) + 1 ≤ (match_keyword F (some knode) (some ctl_space)).1 := by
  obtain ⟨t, ht⟩ := hp
  constructor
  · refine match_keyword_prefix_other F knode ctl_tab p t rest TAB hwf.2.1 ht.symm htab
      (by decide) ?_
    cases t with
    | nil => decide
    | cons c r =>
      rw [List.headD_cons]
      exact hnotab c (by rw [← ht]; simp)
  · rw [match_keyword_prefix_space F knode ctl_space p t rest hwf ht.symm hspace,
      if_neg (Nat.not_lt.2 hmin)]
    have h := le_skip_spaces rest (p.length + 1)
    show (p.length : Int) + 1 ≤ ((skip_spaces rest (p.length + 1) : Nat) : Int)
    omega

/-- Witness for C15 (amended): keyword "version", minimum match 3, prefix
"ver" followed by a tab and by a space. -/
theorem C15_only_space_terminates_a_prefix_witness :
    match_keyword kw_flags (some (plain_keyword "version" 3))
        (some (ctl_line (bytes "ver" ++ TAB :: bytes "x") 0)) =
      (0, some (ctl_line (bytes "ver" ++ TAB :: bytes "x") 0)) ∧
    ((bytes "ver").length : Int) + 1 ≤
      (match_keyword kw_flags (some (plain_keyword "version" 3))
        (some (ctl_line (bytes "ver" ++ SPACE :: bytes "x") 0))).1 :=
  C15_only_space_terminates_a_prefix kw_flags (plain_keyword "version" 3)
    (ctl_line (bytes "ver" ++ TAB :: bytes "x") 0) (ctl_line (bytes "ver" ++ SPACE :: bytes "x") 0)
    (bytes "ver") (bytes "x") (by decide) (by decide) (by decide) (by decide) (by decide)
    (by decide)

/-- C16: with a missing node or a missing control context `match_keyword`
returns `-EINVAL`, a negative value, whatever the other argument is, and hands
the control context back untouched. -/
theorem C16_missing_argument_is_einval (F : KW_FLAGS) (node : Option PARSER_NODE_KEYWORD)
    (ctl : Option PARSER_CTRL) :
    match_keyword F none ctl = (-EINVAL, ctl) ∧
    match_keyword F node none = (-EINVAL, none) ∧
    -EINVAL < 0 := by
  refine ⟨rfl, ?_, by decide⟩
  cases node <;> rfl

/-- C17: the store frame of `match_keyword`. The context after the call
equals the context before it when 0 is returned and when the set-value flag of
the node is clear; in every case the slots at indices other than the node's
index, the number of slots, the command line and the cursor are unchanged. -/
theorem C17_store_frame (F : KW_FLAGS) (knode : PARSER_NODE_KEYWORD) (ctl : PARSER_CTRL) :
    ∃ ctl1 : PARSER_CTRL,
      (match_keyword F (some knode) (some ctl)).2 = some ctl1 ∧
      ((match_keyword F (some knode) (some ctl)).1 = 0 → ctl1 = ctl) ∧
      (knode.header.node_flags &&& F.PARSER_NODE_KW_FLAG_SET_VALUE = 0 → ctl1 = ctl) ∧
      (∀ j, j ≠ knode.index →
        ctl1.integers[j]? = ctl.integers[j]? ∧ ctl1.strings[j]? = ctl.strings[j]?) ∧
      ctl1.integers.length = ctl.integers.length ∧
      ctl1.strings.length = ctl.strings.length ∧
      ctl1.command_line = ctl.command_line ∧
      ctl1.total_parsed = ctl.total_parsed := by
  rcases match_keyword_paths F knode ctl with ⟨_, h⟩ | ⟨_, n, hn, _, h⟩
  · rw [h]
    exact ⟨ctl, rfl, fun _ => rfl, fun _ => rfl, fun _ _ => ⟨rfl, rfl⟩, rfl, rfl, rfl, rfl⟩
  · rw [h]
    have hs := apply_effect_other_slots F knode ctl
    have hf := apply_effect_frame F knode ctl
    refine ⟨apply_effect F knode ctl, rfl, fun h0 => ?_, fun hv => ?_, hs.1, hs.2.1, hs.2.2,
      hf.2.1, hf.2.2⟩
    · have h0' : (n : Int) = 0 := h0
      omega
    · rw [apply_effect, if_neg (not_not.2 hv)]

/-- C18: cursor safety. With the cursor inside the line, `match_keyword`
returns a natural number `n`; `n` is 0 exactly on the paths that leave through
`return 0` and at least 1 on the path that reaches `return match`; the `n`
characters consumed all precede the terminator of the line, and the cursor
advanced by `n` does not pass the end of the line. -/
theorem C18_cursor_safety (F : KW_FLAGS) (knode : PARSER_NODE_KEYWORD) (ctl : PARSER_CTRL)
    (hcur : ctl.total_parsed ≤ ctl.command_line.length) :
    ∃ n : Nat,
      (match_keyword F (some knode) (some ctl)).1 = (n : Int) ∧
      (n = 0 ↔ reaches_return_match knode ctl = false) ∧
      (reaches_return_match knode ctl = true → 1 ≤ n) ∧
      (∀ l, l < n → char_at ctl.command_line (ctl.total_parsed + l) ≠ NUL) ∧
      ctl.total_parsed + n ≤ ctl.command_line.length := by
  rcases match_keyword_paths F knode ctl with ⟨hr, h⟩ | ⟨hr, n, hn, hnul, h⟩
  · refine ⟨0, by rw [h]; rfl, by simp [hr], by simp [hr], fun l hl => by omega, by omega⟩
  · have hlen := le_length_of_no_nul (unconsumed ctl) n hnul
    simp only [unconsumed, List.length_drop] at hlen
    refine ⟨n, by rw [h], by simp [hr]; omega, fun _ => hn, fun l hl => ?_, by omega⟩
    have := hnul l hl
    rwa [unconsumed, char_at_drop] at this

/-- Witness for C18: keyword "version" at cursor 3 of "sh ver  x". -/
theorem C18_cursor_safety_witness :
    ∃ n : Nat,
      (match_keyword kw_flags (some (plain_keyword "version" 2))
        (some (ctl_at "sh ver  x" 3))).1 = (n : Int) ∧
      (n = 0 ↔ reaches_return_match (plain_keyword "version" 2) (ctl_at "sh ver  x" 3) = false) ∧
      (reaches_return_match (plain_keyword "version" 2) (ctl_at "sh ver  x" 3) = true → 1 ≤ n) ∧
      (∀ l, l < n →
        char_at (ctl_at "sh ver  x" 3).command_line ((ctl_at "sh ver  x" 3).total_parsed + l)
          ≠ NUL) ∧
      (ctl_at "sh ver  x" 3).total_parsed + n ≤ (ctl_at "sh ver  x" 3).command_line.length :=
  C18_cursor_safety kw_flags (plain_keyword "version" 2) (ctl_at "sh ver  x" 3) (by decide)

/-- C19: the empty prefix. With `minimum_match = 0` and an unconsumed input
that starts with a run of exactly `k ≥ 1` spaces, the character loop stops at
once with no keyword character matched, and `match_keyword` returns `k` and
runs the effect block of the node. -/
theorem C19_empty_prefix_match (F : KW_FLAGS) (knode : PARSER_NODE_KEYWORD)
    (ctl : PARSER_CTRL) (rest : List Nat) (k : Nat) (hwf : keyword_wf knode)
    (hmin : knode.minimum_match = 0) (hk : 1 ≤ k)
    (hcmd : unconsumed ctl = List.replicate k SPACE ++ rest)
    (hrest : rest.head? ≠ some SPACE) :
    keyword_loop knode.keyword (unconsumed ctl) KEYWORD_LENGTH_MAX 0 0 = some (0, 0) ∧
      match_keyword F (some knode) (some ctl) = ((k : Int), some (apply_effect F knode ctl)) := by
  obtain ⟨k', rfl⟩ : ∃ k', k = k' + 1 := ⟨k - 1, by omega⟩
  have hcmd' : unconsumed ctl = [] ++ SPACE :: (List.replicate k' SPACE ++ rest) := by
    rw [hcmd, List.replicate_succ, List.cons_append, List.nil_append]
  have ht : knode.keyword.headD NUL ≠ SPACE := by
    cases hkw : knode.keyword with
    | nil => decide
    | cons c r =>
      rw [List.headD_cons]
      exact (hwf.2.2 c (by rw [hkw]; simp)).2
  constructor
  · have h := keyword_loop_prefix_space [] knode.keyword (List.replicate k' SPACE ++ rest)
      (by simp) ht (by decide)
    rw [hcmd']
    simpa using h
  · rw [match_keyword_prefix_space F knode ctl [] knode.keyword _ hwf (List.nil_append _).symm
      hcmd', hmin, skip_spaces_replicate rest hrest]
    simp only [List.length_nil, lt_irrefl, if_false, Nat.zero_add]
    rw [Nat.add_comm]

/-- Witness for C19: keyword "show" with minimum match 0, writing 7 into
slot 2, against three spaces followed by "x". -/
theorem C19_empty_prefix_match_witness :
    keyword_loop (keyword_node 0x40 "show" 0 2 7 "").keyword (unconsumed (ctl_at "   x" 0))
        KEYWORD_LENGTH_MAX 0 0 = some (0, 0) ∧
      match_keyword kw_flags (some (keyword_node 0x40 "show" 0 2 7 "")) (some (ctl_at "   x" 0)) =
        (((3 : Nat) : Int),
          some (apply_effect kw_flags (keyword_node 0x40 "show" 0 2 7 "") (ctl_at "   x" 0))) :=
  C19_empty_prefix_match kw_flags (keyword_node 0x40 "show" 0 2 7 "") (ctl_at "   x" 0)
    (bytes "x") 3 (by decide) (by decide) (by decide) (by decide) (by decide)

/-- C20: keyword matching is case-sensitive. When the unconsumed input agrees
with the keyword up to a position where the keyword holds a letter and the
input holds the same letter in the other case, `match_keyword` returns 0 and
leaves the context alone. -/
theorem C20_case_sensitive (F : KW_FLAGS) (knode : PARSER_NODE_KEYWORD) (ctl : PARSER_CTRL)
    (j : Nat) (hlen : knode.keyword.length < KEYWORD_LENGTH_MAX)
    (hagree : ∀ i, i < j → char_at knode.keyword i = char_at (unconsumed ctl) i)
    (hletter : is_letter (char_at knode.keyword j))
    (hcase : char_at (unconsumed ctl) j = swap_case (char_at knode.keyword j)) :
    match_keyword F (some knode) (some ctl) = (0, some ctl) := by
  have hj : j < knode.keyword.length := by
    by_contra hge
    have hz : char_at knode.keyword j = 0 := by
      simp [char_at, NUL, List.getD_eq_getElem?_getD, List.getElem?_eq_none (Nat.le_of_not_lt hge)]
    rw [hz] at hletter
    exact absurd hletter (by decide)
  have hne : char_at knode.keyword j ≠ char_at (unconsumed ctl) j := by
    rw [hcase]
    unfold is_letter at hletter
    unfold swap_case
    split_ifs <;> omega
  have hsp : char_at (unconsumed ctl) j ≠ SPACE := by
    rw [hcase]
    unfold is_letter at hletter
    unfold swap_case SPACE
    split_ifs <;> omega
  have hnone : keyword_loop knode.keyword (unconsumed ctl) KEYWORD_LENGTH_MAX 0 0 = none :=
    keyword_loop_mismatch _ _ j (fun h => hne h.1) hsp KEYWORD_LENGTH_MAX 0 0
      (Nat.zero_le _) (by omega) (fun l _ h => hagree l h)
  simp only [match_keyword, hnone]

/-- Witness for C20: the input "shOw " against the keyword "show". -/
theorem C20_case_sensitive_witness :
    swap_case (char_at (plain_keyword "show" 2).keyword 2) = 79 ∧
    match_keyword kw_flags (some (plain_keyword "show" 2)) (some (ctl_at "shOw " 0)) =
      (0, some (ctl_at "shOw " 0)) :=
  ⟨by decide, C20_case_sensitive kw_flags (plain_keyword "show" 2) (ctl_at "shOw " 0) 2
    (by decide) (by decide) (by decide) (by decide)⟩

end Ciscli
